import Mathlib

/-!
Verification development for the versioned-draft query engine in
`src/versions/drafts/queryDrafts.ts` (exported `queryDrafts` and its two
strategies `queryDraftsV1` / `queryDraftsV2`).

The embedding models documents as ordered association lists with
JavaScript object-literal semantics (a later assignment to a field
overrides an earlier one), the MongoDB aggregation pipeline used by
strategy A as a sort / group / match composition on lists, and the
external store collaborators (`buildQuery`, `aggregatePaginate`,
`paginate`) as function-valued components of an environment record, so
every theorem quantifying over the environment holds for every possible
store behaviour.  A branch of the TypeScript code that throws (reading
`.docs` off a value that has no such property, or `Object.entries` of an
absent sort mapping) is modelled as the `none` result.
-/

namespace QueryDraftsModel

/-- Scalar values stored in document fields. -/
inductive Value where
  | s : String → Value
  | n : Int → Value
  | b : Bool → Value
deriving DecidableEq

/-- A document: an ordered list of field assignments.  As in a JavaScript
object literal, a later assignment to the same field overrides an earlier
one. -/
abbrev Doc := List (String × Value)

/-- Field lookup on a document: the last assignment to the key wins
(JavaScript object-literal / spread semantics). -/
def getField (d : Doc) (k : String) : Option Value :=
  d.foldl (fun acc p => if p.1 == k then some p.2 else acc) none

/-- The caller-facing query predicate tree (the `Where` type): an empty
query, an equality constraint on one field, or a boolean combination. -/
inductive Where where
  | empty : Where
  | eqField : String → Value → Where
  | and : Where → Where → Where
  | or : Where → Where → Where
deriving DecidableEq

/-- One stored version record (the version-wrapper document shape):
its own `_id`, the owning entity's id in `parent`, the draft content in
`version`, the wrapper's own timestamps, and the `latest` marker used by
strategy B. -/
structure VersionRecord where
  _id : Value
  parent : Value
  version : Doc
  updatedAt : Int
  createdAt : Int
  latest : Bool
deriving DecidableEq

/-- The shape produced by the `$group` stage of strategy A's pipeline
(the TypeScript `AggregateVersion<T>` type): group key `_id` (the parent),
the first `version`, `updatedAt`, `createdAt` encountered in the group. -/
structure AggRow where
  _id : Value
  version : Doc
  updatedAt : Int
  createdAt : Int
deriving DecidableEq

/-- The `$group` stage's projection of one record: `_id: '$parent'`,
`version/updatedAt/createdAt: {$first: ...}` applied to that record. -/
def recordToRow (r : VersionRecord) : AggRow :=
  { _id := r.parent, version := r.version
    updatedAt := r.updatedAt, createdAt := r.createdAt }

/-- The grouped row rendered as a flat document with the nested `version`
content addressed by dotted paths, the shape the `$match` stage's
predicate is evaluated against. -/
def aggRowToDoc (row : AggRow) : Doc :=
  ("_id", row._id) :: ("updatedAt", Value.n row.updatedAt)
    :: ("createdAt", Value.n row.createdAt)
    :: row.version.map (fun p => ("version." ++ p.1, p.2))

/-- Modelled from the spec: the Query Key Rewriter of
`appendVersionToQueryKey.ts` (imported by the source but not itself under
`src/`).  Per §4.4 of the spec it is total over keys: `id`, `createdAt`,
`updatedAt` map to themselves and every other key is prefixed to address
the nested version payload namespace. -/
def rewriteQueryKey (k : String) : String :=
  if k = "id" ∨ k = "createdAt" ∨ k = "updatedAt" then k else "version." ++ k

/-- Modelled from the spec: `appendVersionToQueryKey` applied recursively
over every field reference of a predicate tree; operators and logical
structure are untouched (spec §4.4). -/
def appendVersionToQueryKey : Where → Where
  | Where.empty => Where.empty
  | Where.eqField k v => Where.eqField (rewriteQueryKey k) v
  | Where.and l r => Where.and (appendVersionToQueryKey l) (appendVersionToQueryKey r)
  | Where.or l r => Where.or (appendVersionToQueryKey l) (appendVersionToQueryKey r)

/-- Modelled from the spec: the Predicate Combiner `combineQueries`
(imported from `database/combineQueries`, not under `src/`).  Per §4.5, if
either input is empty/absent it returns the other unchanged, otherwise it
returns the conjunction. -/
def combineQueries (p1 p2 : Where) : Where :=
  match p1, p2 with
  | Where.empty, q => q
  | q, Where.empty => q
  | q1, q2 => Where.and q1 q2

/-- The result of access-control evaluation: a boolean (`true` =
unrestricted; `false` is rejected upstream) or a where-predicate. -/
inductive AccessResult where
  | bool : Bool → AccessResult
  | query : Where → AccessResult
deriving DecidableEq

/-- The access argument actually handed to the store query builder:
`undefined`, a boolean, or a predicate. -/
inductive AccessArg where
  | undef : AccessArg
  | bool : Bool → AccessArg
  | query : Where → AccessArg
deriving DecidableEq

/-- Strategy B passes the access result to the query builder as-is. -/
def AccessArg.ofResult : AccessResult → AccessArg
  | AccessResult.bool b => AccessArg.bool b
  | AccessResult.query w => AccessArg.query w

/-- Strategy A's access argument: when `hasWhereAccessResult(accessResult)`
holds (the access result is a predicate) it is that predicate rewritten by
`appendVersionToQueryKey`; otherwise the local variable stays
`undefined`. -/
def versionAccessOf : AccessResult → AccessArg
  | AccessResult.query w => AccessArg.query (appendVersionToQueryKey w)
  | AccessResult.bool _ => AccessArg.undef

/-- The relation used by the pipeline's `$sort: {updatedAt: -1}` stage:
`a` may come before `b` when `a.updatedAt ≥ b.updatedAt`. -/
def updGe (a b : VersionRecord) : Prop := b.updatedAt ≤ a.updatedAt

instance : DecidableRel updGe :=
  fun a b => inferInstanceAs (Decidable (b.updatedAt ≤ a.updatedAt))

instance : IsTotal VersionRecord updGe :=
  ⟨fun a b => le_total b.updatedAt a.updatedAt⟩

instance : IsTrans VersionRecord updGe :=
  ⟨fun _ _ _ h1 h2 => le_trans h2 h1⟩

/-- Pipeline stage (a): sort all version records so that the most recently
updated come first (`$sort: {updatedAt: -1}`). -/
def sortByUpdatedAtDesc (l : List VersionRecord) : List VersionRecord :=
  List.insertionSort updGe l

/-- Worker for the `$group` stage: walk the (already sorted) records in
order, emitting the first record seen for each parent not yet in `seen`
and dropping every later record of an already-emitted parent. -/
def groupByParentAux (seen : List Value) : List VersionRecord → List AggRow
  | [] => []
  | r :: rest =>
      if r.parent ∈ seen then groupByParentAux seen rest
      else recordToRow r :: groupByParentAux (r.parent :: seen) rest

/-- Pipeline stage (b): `$group` by `parent`, keeping the `$first`
`version`, `updatedAt` and `createdAt` of each group, i.e. the first
record encountered for each distinct parent. -/
def groupByParent (l : List VersionRecord) : List AggRow :=
  groupByParentAux [] l

/-- Pipeline stage (c): `$match` with the built query predicate, evaluated
against the grouped row shape. -/
def matchStage (q : Doc → Bool) (rows : List AggRow) : List AggRow :=
  rows.filter (fun row => q (aggRowToDoc row))

/-- Sort direction tokens of a pagination sort mapping (spec §6 recognizes
an ascending/descending token per field). -/
inductive SortOrder where
  | asc : SortOrder
  | desc : SortOrder
deriving DecidableEq

/-- The caller-supplied pagination options; `sort` is the ordered mapping
of field name to direction (absent when the caller supplied none). -/
structure PaginateOptions where
  sort : Option (List (String × SortOrder))
  limit : Option Nat
  page : Option Nat
deriving DecidableEq

/-- The sort-key remap both strategies apply before handing the sort to
the paginator: keys outside `['createdAt', 'updatedAt', '_id']` are
prefixed with `version.`. -/
def remapSortKey (k : String) : String :=
  if k = "createdAt" ∨ k = "updatedAt" ∨ k = "_id" then k else "version." ++ k

/-- `order === 'asc' ? 1 : -1`. -/
def sortOrderValue : SortOrder → Int
  | SortOrder.asc => 1
  | SortOrder.desc => -1

/-- The `Object.entries(...).reduce(...)` over the sort mapping: every
entry's key is remapped and its direction token replaced by the signed
ordering value. -/
def remapSort (s : List (String × SortOrder)) : List (String × Int) :=
  s.map (fun p => (remapSortKey p.1, sortOrderValue p.2))

/-- The option object each strategy actually hands to its paginator: the
spread of the caller's options plus `useFacet`, the remapped `sort`, and
(strategy B only) the `lean` flags. -/
structure UsedPaginateOptions where
  base : PaginateOptions
  useFacet : Option Bool
  lean : Option Bool
  leanWithId : Option Bool
  sort : List (String × Int)

/-- The uniform paginated result shape returned by the store. -/
structure Paginated (α : Type) where
  docs : List α
  totalDocs : Nat
  page : Nat
  hasNextPage : Bool

/-- `{...result, docs: result.docs.map(f)}`: every field other than
`docs` passes through unchanged. -/
def Paginated.mapDocs {α β : Type} (p : Paginated α) (f : α → β) : Paginated β :=
  { docs := p.docs.map f, totalDocs := p.totalDocs
    page := p.page, hasNextPage := p.hasNextPage }

/-- The `database` section of the configuration, holding the strategy
selection flag `queryDrafts_2_0` (absent when not configured). -/
structure DatabaseCfg where
  queryDrafts_2_0 : Option Bool
deriving DecidableEq

/-- The configuration object, whose `database` section may be absent. -/
structure ConfigObj where
  database : Option DatabaseCfg
deriving DecidableEq

/-- Mongo driver options (`payload.mongoOptions?.useFacet`). -/
structure MongoOptions where
  useFacet : Option Bool
deriving DecidableEq

/-- The slice of the `payload` instance the function reads: the (possibly
absent) configuration and the mongo driver options. -/
structure PayloadCfg where
  config : Option ConfigObj
  mongoOptions : Option MongoOptions
deriving DecidableEq

/-- The arguments of `queryDrafts` that the modelled logic consumes.
`whereQ` is the TypeScript `where` argument (`where` is reserved in
Lean); `Where.empty` plays the role of both `{}` and an absent `where`,
which the source's `incomingWhere || {}` guard collapses anyway. -/
structure Args where
  accessResult : AccessResult
  overrideAccess : Bool
  paginationOptions : Option PaginateOptions
  payload : PayloadCfg
  whereQ : Where

/-- The external store collaborators behind `VersionModel`: the query
builder and the two pagination executors.  They are arbitrary functions,
so facts proved for every `QueryEnv` hold for every store behaviour. -/
structure QueryEnv where
  docs : List VersionRecord
  buildQuery : Where → AccessArg → Bool → (Doc → Bool)
  aggregatePaginate : List AggRow → UsedPaginateOptions → Paginated AggRow
  paginate : (Doc → Bool) → UsedPaginateOptions → Paginated VersionRecord

/-- Strategy A's Result Normalizer:
`{_id: doc._id, ...doc.version, updatedAt: doc.updatedAt, createdAt: doc.createdAt}`. -/
def normalizeV1 (row : AggRow) : Doc :=
  (("_id", row._id) :: row.version)
    ++ [("updatedAt", Value.n row.updatedAt), ("createdAt", Value.n row.createdAt)]

/-- Strategy B's Result Normalizer:
`{_id: doc.parent, id: doc.parent, ...doc.version, updatedAt: doc.updatedAt, createdAt: doc.createdAt}`. -/
def normalizeV2 (r : VersionRecord) : Doc :=
  (("_id", r.parent) :: ("id", r.parent) :: r.version)
    ++ [("updatedAt", Value.n r.updatedAt), ("createdAt", Value.n r.createdAt)]

/-- Strategy A (`queryDraftsV1`): rewrite the caller's `where` and (when
it is a predicate) the access result through `appendVersionToQueryKey`,
build the query, run the sort/group/match aggregation pipeline, and
either paginate (after remapping the sort mapping) or execute directly.

The two failing branches of the source are modelled as `none`:
with pagination but no sort mapping, `Object.entries(undefined)` throws
before the paginator is called; without pagination, `result =
aggregate.exec()` is never awaited (and even awaited would resolve to a
plain array), so `result.docs` is `undefined` and `result.docs.map`
throws a `TypeError`. -/
def queryDraftsV1 (env : QueryEnv) (args : Args) : Option (Paginated Doc) :=
  let w := appendVersionToQueryKey args.whereQ
  let versionAccessResult := versionAccessOf args.accessResult
  let versionQuery := env.buildQuery w versionAccessResult args.overrideAccess
  let pipelineOut := matchStage versionQuery (groupByParent (sortByUpdatedAtDesc env.docs))
  match args.paginationOptions with
  | some po =>
      match po.sort with
      | none => none
      | some s =>
          let opts : UsedPaginateOptions :=
            { base := po
              useFacet := args.payload.mongoOptions.bind MongoOptions.useFacet
              lean := none, leanWithId := none
              sort := remapSort s }
          some ((env.aggregatePaginate pipelineOut opts).mapDocs normalizeV1)
  | none => none

/-- Strategy B (`queryDraftsV2`): combine `{latest: {equals: true}}` with
the caller's `where` through `combineQueries`, hand the combined query and
the raw access result to the query builder, and either paginate (lean
mode, remapped sort) or execute a plain find.

The two failing branches of the source are modelled as `none`: with
pagination but no sort mapping, `Object.entries(undefined)` throws before
the paginator is called; without pagination, `await VersionModel.find`
resolves to a plain array, so `result.docs` is `undefined` and
`result.docs.map` throws a `TypeError`. -/
def queryDraftsV2 (env : QueryEnv) (args : Args) : Option (Paginated Doc) :=
  let combinedQuery := combineQueries (Where.eqField "latest" (Value.b true)) args.whereQ
  let versionsQuery :=
    env.buildQuery combinedQuery (AccessArg.ofResult args.accessResult) args.overrideAccess
  match args.paginationOptions with
  | some po =>
      match po.sort with
      | none => none
      | some s =>
          let opts : UsedPaginateOptions :=
            { base := po
              useFacet := args.payload.mongoOptions.bind MongoOptions.useFacet
              lean := some true, leanWithId := some true
              sort := remapSort s }
          some ((env.paginate versionsQuery opts).mapDocs normalizeV2)
  | none => none

/-- `args.payload.config?.database?.queryDrafts_2_0` as a truthiness
test: an absent configuration, database section, or flag is falsy. -/
def usesFlagStrategy (p : PayloadCfg) : Bool :=
  ((p.config.bind ConfigObj.database).bind DatabaseCfg.queryDrafts_2_0).getD false

/-- The exported `queryDrafts`: dispatch on the configuration flag. -/
def queryDrafts (env : QueryEnv) (args : Args) : Option (Paginated Doc) :=
  if usesFlagStrategy args.payload then queryDraftsV2 env args
  else queryDraftsV1 env args

/-! ### Helper lemmas about field lookup -/

theorem foldl_getField (d : Doc) (k : String) (acc : Option Value) :
    List.foldl (fun a p => if p.1 == k then some p.2 else a) acc d
      = (getField d k).elim acc some := by
  induction d generalizing acc with
  | nil => rfl
  | cons p rest ih =>
      show List.foldl _ (if p.1 == k then some p.2 else acc) rest
        = (getField (p :: rest) k).elim acc some
      have hg : getField (p :: rest) k
          = (getField rest k).elim (if p.1 == k then some p.2 else none) some := ih _
      rw [ih, hg]
      cases getField rest k with
      | some v => rfl
      | none => by_cases hp : p.1 == k <;> simp [hp]

theorem getField_append (d1 d2 : Doc) (k : String) :
    getField (d1 ++ d2) k = (getField d2 k).elim (getField d1 k) some := by
  simp only [getField, List.foldl_append]
  rw [show List.foldl (fun a p => if p.1 == k then some p.2 else a) none d1
        = getField d1 k from rfl]
  exact foldl_getField d2 k (getField d1 k)

theorem getField_cons (p : String × Value) (d : Doc) (k : String) :
    getField (p :: d) k
      = (getField d k).elim (if p.1 == k then some p.2 else none) some := by
  simp only [getField, List.foldl_cons]
  exact foldl_getField d k _

/-! ### Helper lemmas about the group stage -/

theorem mem_groupByParentAux (seen : List Value) (l : List VersionRecord)
    (hp : l.Pairwise updGe) {row : AggRow} (h : row ∈ groupByParentAux seen l) :
    ∃ r, r ∈ l ∧ row = recordToRow r ∧ r.parent ∉ seen ∧
      ∀ r' ∈ l, r'.parent = r.parent → r'.updatedAt ≤ r.updatedAt := by
  induction l generalizing seen with
  | nil => simp [groupByParentAux] at h
  | cons r rest ih =>
      have hhead := (List.pairwise_cons.mp hp).1
      have htail := (List.pairwise_cons.mp hp).2
      rw [groupByParentAux] at h
      by_cases hseen : r.parent ∈ seen
      · rw [if_pos hseen] at h
        obtain ⟨r0, hr0mem, hr0eq, hr0seen, hr0max⟩ := ih seen htail h
        refine ⟨r0, List.mem_cons_of_mem _ hr0mem, hr0eq, hr0seen, ?_⟩
        intro r' hr' hpar
        rcases List.mem_cons.mp hr' with rfl | hr'
        · exact absurd (hpar ▸ hseen) hr0seen
        · exact hr0max r' hr' hpar
      · rw [if_neg hseen] at h
        rcases List.mem_cons.mp h with rfl | h
        · refine ⟨r, List.mem_cons_self _ _, rfl, hseen, ?_⟩
          intro r' hr' _
          rcases List.mem_cons.mp hr' with rfl | hr'
          · exact le_refl _
          · exact hhead r' hr'
        · obtain ⟨r0, hr0mem, hr0eq, hr0seen, hr0max⟩ := ih (r.parent :: seen) htail h
          have hr0ne : r0.parent ≠ r.parent := fun hcontra =>
            hr0seen (hcontra ▸ List.mem_cons_self _ _)
          refine ⟨r0, List.mem_cons_of_mem _ hr0mem,
            hr0eq, fun hc => hr0seen (List.mem_cons_of_mem _ hc), ?_⟩
          intro r' hr' hpar
          rcases List.mem_cons.mp hr' with rfl | hr'
          · exact absurd hpar.symm hr0ne
          · exact hr0max r' hr' hpar

theorem mem_groupByParent_sorted (l : List VersionRecord)
    (hp : l.Pairwise updGe) {row : AggRow} (h : row ∈ groupByParent l) :
    ∃ r, r ∈ l ∧ row = recordToRow r ∧
      ∀ r' ∈ l, r'.parent = r.parent → r'.updatedAt ≤ r.updatedAt := by
  obtain ⟨r, hmem, heq, _, hmax⟩ := mem_groupByParentAux [] l hp h
  exact ⟨r, hmem, heq, hmax⟩

/-! ### Field lookup on the normalized entity shapes -/

theorem normalizeV1_getField_updatedAt (row : AggRow) :
    getField (normalizeV1 row) "updatedAt" = some (Value.n row.updatedAt) := by
  rw [normalizeV1, getField_append]; rfl

theorem normalizeV1_getField_createdAt (row : AggRow) :
    getField (normalizeV1 row) "createdAt" = some (Value.n row.createdAt) := by
  rw [normalizeV1, getField_append]; rfl

theorem normalizeV1_getField_id (row : AggRow) :
    getField (normalizeV1 row) "_id"
      = some ((getField row.version "_id").getD row._id) := by
  rw [normalizeV1, getField_append]
  show (getField (("_id", row._id) :: row.version) "_id") = _
  rw [getField_cons]
  cases getField row.version "_id" with
  | some v => rfl
  | none => rfl

theorem normalizeV2_getField_updatedAt (r : VersionRecord) :
    getField (normalizeV2 r) "updatedAt" = some (Value.n r.updatedAt) := by
  rw [normalizeV2, getField_append]; rfl

theorem normalizeV2_getField_createdAt (r : VersionRecord) :
    getField (normalizeV2 r) "createdAt" = some (Value.n r.createdAt) := by
  rw [normalizeV2, getField_append]; rfl

theorem normalizeV2_getField_id (r : VersionRecord) :
    getField (normalizeV2 r) "id"
      = some ((getField r.version "id").getD r.parent) := by
  rw [normalizeV2, getField_append]
  show (getField (("_id", r.parent) :: ("id", r.parent) :: r.version) "id") = _
  rw [getField_cons]
  show (getField (("id", r.parent) :: r.version) "id").elim none some = _
  rw [getField_cons]
  cases getField r.version "id" with
  | some v => rfl
  | none => rfl

theorem normalizeV2_getField_uid (r : VersionRecord) :
    getField (normalizeV2 r) "_id"
      = some ((getField r.version "_id").getD r.parent) := by
  rw [normalizeV2, getField_append]
  show (getField (("_id", r.parent) :: ("id", r.parent) :: r.version) "_id") = _
  rw [getField_cons]
  show (getField (("id", r.parent) :: r.version) "_id").elim (some r.parent) some = _
  rw [getField_cons]
  cases getField r.version "_id" with
  | some v => rfl
  | none => rfl

/-! ### Sample data for witnesses -/

/-- Parent X, old version, payload says published. -/
def recX1 : VersionRecord :=
  { _id := Value.s "x1", parent := Value.s "X"
    version := [("status", Value.s "published")]
    updatedAt := 10, createdAt := 1, latest := false }

/-- Parent X, latest version, payload says draft. -/
def recX2 : VersionRecord :=
  { _id := Value.s "x2", parent := Value.s "X"
    version := [("status", Value.s "draft")]
    updatedAt := 20, createdAt := 1, latest := true }

/-- Parent Y, only version, payload says published. -/
def recY : VersionRecord :=
  { _id := Value.s "y1", parent := Value.s "Y"
    version := [("status", Value.s "published")]
    updatedAt := 15, createdAt := 2, latest := true }

/-- A record whose payload carries a field literally named `id`. -/
def recEvilId : VersionRecord :=
  { _id := Value.s "v7", parent := Value.s "P"
    version := [("id", Value.s "evil"), ("title", Value.s "t")]
    updatedAt := 5, createdAt := 3, latest := true }

/-- A record whose payload carries a field literally named `_id` holding
the record's own id. -/
def recSelfId : VersionRecord :=
  { _id := Value.s "self", parent := Value.s "P"
    version := [("_id", Value.s "self")]
    updatedAt := 5, createdAt := 3, latest := false }

/-- An executable predicate matching grouped rows whose resolved payload
status is published. -/
def pubQuery : Doc → Bool :=
  fun d => decide (getField d "version.status" = some (Value.s "published"))

/-- A concrete environment with trivial collaborators. -/
def envNull : QueryEnv :=
  { docs := []
    buildQuery := fun _ _ _ => fun _ => true
    aggregatePaginate := fun rows _ =>
      { docs := rows, totalDocs := rows.length, page := 1, hasNextPage := false }
    paginate := fun _ _ =>
      { docs := [], totalDocs := 0, page := 1, hasNextPage := false } }

/-- An environment whose query builder genuinely depends on the access
argument it is handed, but agrees with `envNull` at every non-`undef`
access argument. -/
def envAlt : QueryEnv :=
  { docs := []
    buildQuery := fun _ a _ => fun _ => if a = AccessArg.undef then false else true
    aggregatePaginate := envNull.aggregatePaginate
    paginate := envNull.paginate }

/-- Baseline arguments: unrestricted access, no pagination, no config. -/
def argsBase : Args :=
  { accessResult := AccessResult.bool true
    overrideAccess := false
    paginationOptions := none
    payload := { config := none, mongoOptions := none }
    whereQ := Where.empty }

/-- Arguments whose configuration switches the flag strategy on. -/
def argsFlagTrue : Args :=
  { argsBase with
    payload :=
      { config := some { database := some { queryDrafts_2_0 := some true } }
        mongoOptions := none } }

/-- A pagination spec carrying a sort mapping. -/
def poSorted : PaginateOptions :=
  { sort := some [("title", SortOrder.asc)], limit := some 10, page := some 1 }

/-- A pagination spec without a sort mapping. -/
def poNoSort : PaginateOptions :=
  { sort := none, limit := some 5, page := some 1 }

/-- Baseline arguments plus a sorted pagination spec. -/
def argsPag : Args := { argsBase with paginationOptions := some poSorted }

/-- Baseline arguments plus a pagination spec with no sort mapping. -/
def argsPagNoSort : Args := { argsBase with paginationOptions := some poNoSort }

/-! ### Claims -/

/-- C1: under strategy A the aggregation pipeline applies `$sort` by
`updatedAt` descending, then `$group` by parent keeping the first record
per group, then `$match` with the built query predicate.  Consequently
every row of the pipeline's output satisfies the predicate, and is the
grouped projection of a stored record of its parent with maximal
`updatedAt` among that parent's records: the filter is evaluated against
the resolved latest record per parent, so an entity whose latest version
fails the filter is excluded even when an older version of it would
pass. -/
theorem c1_filter_sees_resolved_latest
    (docs : List VersionRecord) (q : Doc → Bool) (row : AggRow)
    (h : row ∈ matchStage q (groupByParent (sortByUpdatedAtDesc docs))) :
    q (aggRowToDoc row) = true ∧
      ∃ r, r ∈ docs ∧ row = recordToRow r ∧
        q (aggRowToDoc (recordToRow r)) = true ∧
        ∀ r' ∈ docs, r'.parent = r.parent → r'.updatedAt ≤ r.updatedAt := by
  have hmem := (List.mem_filter.mp h).1
  have hq : q (aggRowToDoc row) = true := by
    have := (List.mem_filter.mp h).2
    simpa using this
  have hsorted : (sortByUpdatedAtDesc docs).Pairwise updGe :=
    List.sorted_insertionSort updGe docs
  obtain ⟨r, hrmem, hreq, hrmax⟩ := mem_groupByParent_sorted _ hsorted hmem
  refine ⟨hq, r, ((List.perm_insertionSort updGe docs).mem_iff).mp hrmem,
    hreq, hreq ▸ hq, ?_⟩
  intro r' hr' hpar
  exact hrmax r' (((List.perm_insertionSort updGe docs).mem_iff).mpr hr') hpar

/-- Witness for C1 on the spec's scenario: parent X's latest version is a
draft though an older one was published, parent Y's only version is
published; with the published filter, Y's row is in the output and the
theorem yields its resolved-latest characterization. -/
theorem c1_filter_sees_resolved_latest_witness :
    (recordToRow recY
        ∈ matchStage pubQuery (groupByParent (sortByUpdatedAtDesc [recX1, recX2, recY]))) ∧
      (pubQuery (aggRowToDoc (recordToRow recY)) = true ∧
        ∃ r, r ∈ [recX1, recX2, recY] ∧ recordToRow recY = recordToRow r ∧
          pubQuery (aggRowToDoc (recordToRow r)) = true ∧
          ∀ r' ∈ [recX1, recX2, recY],
            r'.parent = r.parent → r'.updatedAt ≤ r.updatedAt) :=
  ⟨by decide,
    c1_filter_sees_resolved_latest [recX1, recX2, recY] pubQuery (recordToRow recY)
      (by decide)⟩

/-- C2 counterexample: the normalizers set the identifier fields before
spreading the payload, so a payload field literally named `id` does
override the metadata-derived value under strategy B: on `recEvilId` the
returned entity's `id` is the payload's `"evil"`, not the parent. -/
theorem c2_counterexample_payload_id_overrides :
    getField (normalizeV2 recEvilId) "id" = some (Value.s "evil") ∧
      getField (normalizeV2 recEvilId) "id" ≠ some recEvilId.parent := by
  decide

/-- C2 amended: a payload field literally named `createdAt` or
`updatedAt` never overrides the metadata-derived timestamps in either
strategy's normalizer, because they are written after the payload
spread; the entity's `id` under strategy B is written before the spread,
so the metadata-derived parent is only the default that a payload field
literally named `id` overrides. -/
theorem c2_amended_metadata_precedence (row : AggRow) (r : VersionRecord) :
    getField (normalizeV1 row) "updatedAt" = some (Value.n row.updatedAt) ∧
    getField (normalizeV1 row) "createdAt" = some (Value.n row.createdAt) ∧
    getField (normalizeV2 r) "updatedAt" = some (Value.n r.updatedAt) ∧
    getField (normalizeV2 r) "createdAt" = some (Value.n r.createdAt) ∧
    getField (normalizeV2 r) "id"
      = some ((getField r.version "id").getD r.parent) :=
  ⟨normalizeV1_getField_updatedAt row, normalizeV1_getField_createdAt row,
    normalizeV2_getField_updatedAt r, normalizeV2_getField_createdAt r,
    normalizeV2_getField_id r⟩

/-- C3 counterexample: on `recSelfId`, whose payload carries a field
literally named `_id` holding the record's own id, strategy A's
normalized entity identifier equals the version record's own id rather
than the parent. -/
theorem c3_counterexample_entity_id_not_parent :
    getField (normalizeV1 (recordToRow recSelfId)) "_id" = some recSelfId._id ∧
      getField (normalizeV1 (recordToRow recSelfId)) "_id" ≠ some recSelfId.parent := by
  decide

/-- C3 amended: provided the payload carries no field literally named
`_id` or `id`, the normalized entity's identifier fields equal the owning
entity's parent (the group key under strategy A, the record's `parent`
under strategy B), never the version record's own id. -/
theorem c3_amended_entity_id_is_parent (r : VersionRecord)
    (h1 : getField r.version "_id" = none) (h2 : getField r.version "id" = none) :
    getField (normalizeV1 (recordToRow r)) "_id" = some r.parent ∧
    getField (normalizeV2 r) "_id" = some r.parent ∧
    getField (normalizeV2 r) "id" = some r.parent := by
  refine ⟨?_, ?_, ?_⟩
  · rw [normalizeV1_getField_id]
    show some ((getField r.version "_id").getD r.parent) = _
    rw [h1]; rfl
  · rw [normalizeV2_getField_uid, h1]; rfl
  · rw [normalizeV2_getField_id, h2]; rfl

/-- Witness for C3 amended at `recY`, whose payload has neither an `_id`
nor an `id` field. -/
theorem c3_amended_entity_id_is_parent_witness :
    getField (normalizeV1 (recordToRow recY)) "_id" = some recY.parent ∧
    getField (normalizeV2 recY) "_id" = some recY.parent ∧
    getField (normalizeV2 recY) "id" = some recY.parent :=
  c3_amended_entity_id_is_parent recY (by decide) (by decide)

/-- C4: the entry point is a pure dispatch on the configuration flag: for
every environment and argument set, with the flag set it returns exactly
`queryDraftsV2` on those arguments and otherwise exactly `queryDraftsV1`
on those arguments, unmodified. -/
theorem c4_pure_dispatch (env : QueryEnv) (args : Args) :
    (usesFlagStrategy args.payload = true →
      queryDrafts env args = queryDraftsV2 env args) ∧
    (usesFlagStrategy args.payload = false →
      queryDrafts env args = queryDraftsV1 env args) := by
  constructor <;> intro h <;> simp [queryDrafts, h]

/-- Witness for C4 at a configuration with the flag set. -/
theorem c4_pure_dispatch_witness :
    queryDrafts envNull argsFlagTrue = queryDraftsV2 envNull argsFlagTrue :=
  (c4_pure_dispatch envNull argsFlagTrue).1 (by decide)

/-- C5: strategy B consumes the query builder only at the single point
where the `where` argument is the Predicate Combiner's conjunction of
`latest == true` with the caller's predicate and the access argument is
the caller's access result unchanged: two environments agreeing on the
other collaborators and on the builder's value at exactly that point
produce identical results. -/
theorem c5_combined_where_raw_access (env env' : QueryEnv) (args : Args)
    (_hdocs : env.docs = env'.docs)
    (_hagg : env.aggregatePaginate = env'.aggregatePaginate)
    (hpag : env.paginate = env'.paginate)
    (hbq : env.buildQuery
        (combineQueries (Where.eqField "latest" (Value.b true)) args.whereQ)
        (AccessArg.ofResult args.accessResult) args.overrideAccess
      = env'.buildQuery
        (combineQueries (Where.eqField "latest" (Value.b true)) args.whereQ)
        (AccessArg.ofResult args.accessResult) args.overrideAccess) :
    queryDraftsV2 env args = queryDraftsV2 env' args := by
  simp only [queryDraftsV2]
  rw [hbq, hpag]

/-- Witness for C5: `envAlt`'s builder differs from `envNull`'s at the
`undef` access argument but agrees at the point strategy B consults, so
the two runs coincide. -/
theorem c5_combined_where_raw_access_witness :
    queryDraftsV2 envNull argsBase = queryDraftsV2 envAlt argsBase :=
  c5_combined_where_raw_access envNull envAlt argsBase rfl rfl rfl rfl

/-- C7: strategy A consumes the query builder only at the single point
where the `where` argument is the caller's predicate rewritten through
`appendVersionToQueryKey` and the access argument is `versionAccessOf`
of the access result; and `versionAccessOf` rewrites a where-predicate
access result through the same `appendVersionToQueryKey` while an
unrestricted (`true`) access result yields no access predicate. -/
theorem c7_access_rewritten_or_skipped (env env' : QueryEnv) (args : Args)
    (hdocs : env.docs = env'.docs)
    (hagg : env.aggregatePaginate = env'.aggregatePaginate)
    (_hpag : env.paginate = env'.paginate)
    (hbq : env.buildQuery (appendVersionToQueryKey args.whereQ)
        (versionAccessOf args.accessResult) args.overrideAccess
      = env'.buildQuery (appendVersionToQueryKey args.whereQ)
        (versionAccessOf args.accessResult) args.overrideAccess) :
    queryDraftsV1 env args = queryDraftsV1 env' args ∧
    (∀ w, versionAccessOf (AccessResult.query w)
        = AccessArg.query (appendVersionToQueryKey w)) ∧
    versionAccessOf (AccessResult.bool true) = AccessArg.undef := by
  refine ⟨?_, fun w => rfl, rfl⟩
  simp only [queryDraftsV1]
  rw [hdocs, hbq, hagg]

/-- Witness for C7 at the trivial environment pair. -/
theorem c7_access_rewritten_or_skipped_witness :
    queryDraftsV1 envNull argsBase = queryDraftsV1 envNull argsBase ∧
    (∀ w, versionAccessOf (AccessResult.query w)
        = AccessArg.query (appendVersionToQueryKey w)) ∧
    versionAccessOf (AccessResult.bool true) = AccessArg.undef :=
  c7_access_rewritten_or_skipped envNull envNull argsBase rfl rfl rfl rfl

/-- C6 counterexample: the source keeps `_id` (not `id`) unchanged, so
the sort key `id` is not in the code's metadata set and is remapped to
`version.id`, contradicting the claim that keys in `{id, createdAt,
updatedAt}` stay unchanged. -/
theorem c6_counterexample_id_key_remapped :
    remapSortKey "id" = "version.id" ∧ remapSortKey "id" ≠ "id" := by
  decide

/-- C6 amended: with the metadata set `{_id, createdAt, updatedAt}` (as
the code has it), every sort key outside the set is remapped to
`version.<key>`, keys in the set are kept, the ascending token maps to 1
and the descending token to -1, and when pagination is requested each
strategy hands its paginator exactly the options carrying the remapped
sort mapping. -/
theorem c6_amended_sort_remap (k : String) (env : QueryEnv) (args : Args)
    (po : PaginateOptions) (s : List (String × SortOrder)) :
    (¬(k = "createdAt" ∨ k = "updatedAt" ∨ k = "_id") →
      remapSortKey k = "version." ++ k) ∧
    ((k = "createdAt" ∨ k = "updatedAt" ∨ k = "_id") → remapSortKey k = k) ∧
    sortOrderValue SortOrder.asc = 1 ∧ sortOrderValue SortOrder.desc = -1 ∧
    (args.paginationOptions = some po → po.sort = some s →
      queryDraftsV1 env args = some ((env.aggregatePaginate
          (matchStage
            (env.buildQuery (appendVersionToQueryKey args.whereQ)
              (versionAccessOf args.accessResult) args.overrideAccess)
            (groupByParent (sortByUpdatedAtDesc env.docs)))
          { base := po
            useFacet := args.payload.mongoOptions.bind MongoOptions.useFacet
            lean := none, leanWithId := none
            sort := remapSort s }).mapDocs normalizeV1) ∧
      queryDraftsV2 env args = some ((env.paginate
          (env.buildQuery
            (combineQueries (Where.eqField "latest" (Value.b true)) args.whereQ)
            (AccessArg.ofResult args.accessResult) args.overrideAccess)
          { base := po
            useFacet := args.payload.mongoOptions.bind MongoOptions.useFacet
            lean := some true, leanWithId := some true
            sort := remapSort s }).mapDocs normalizeV2)) := by
  refine ⟨fun h => if_neg h, fun h => if_pos h, rfl, rfl, fun h1 h2 => ?_⟩
  constructor
  · simp only [queryDraftsV1, h1, h2]
  · simp only [queryDraftsV2, h1, h2]

/-- Witness for C6 amended: the non-metadata key `title` is remapped. -/
theorem c6_amended_sort_remap_witness :
    remapSortKey "title" = "version." ++ "title" :=
  (c6_amended_sort_remap "title" envNull argsPag poSorted
    [("title", SortOrder.asc)]).1 (by decide)

/-- C8: the claim describes the spec's intent, but on the code both
non-paginated branches fail for every store state: strategy A never
awaits `aggregate.exec()` (and the aggregation would resolve to a plain
array anyway) and strategy B's `find` resolves to a plain array, so in
both cases `result.docs` is `undefined` and `result.docs.map` throws a
`TypeError`; no normalized result is ever produced.  The modelled
functions return `none` there. -/
theorem c8_no_pagination_throws (env : QueryEnv) (args : Args)
    (h : args.paginationOptions = none) :
    queryDraftsV1 env args = none ∧ queryDraftsV2 env args = none := by
  constructor
  · simp only [queryDraftsV1, h]
  · simp only [queryDraftsV2, h]

/-- Witness for C8 at the baseline arguments, which request no
pagination. -/
theorem c8_no_pagination_throws_witness :
    queryDraftsV1 envNull argsBase = none ∧ queryDraftsV2 envNull argsBase = none :=
  c8_no_pagination_throws envNull argsBase rfl

/-- C9: whenever a pagination spec is supplied, both strategies read its
sort mapping unconditionally: with the sort mapping absent both fail (for
every environment, i.e. before any store collaborator can influence the
result), and with it present both succeed. -/
theorem c9_pagination_requires_sort (env : QueryEnv) (args : Args)
    (po : PaginateOptions) (h : args.paginationOptions = some po) :
    (po.sort = none →
      queryDraftsV1 env args = none ∧ queryDraftsV2 env args = none) ∧
    (∀ s, po.sort = some s →
      (queryDraftsV1 env args).isSome = true ∧
        (queryDraftsV2 env args).isSome = true) := by
  constructor
  · intro hs
    constructor
    · simp only [queryDraftsV1, h, hs]
    · simp only [queryDraftsV2, h, hs]
  · intro s hs
    constructor
    · simp only [queryDraftsV1, h, hs, Option.isSome_some]
    · simp only [queryDraftsV2, h, hs, Option.isSome_some]

/-- Witness for C9 at a pagination spec without a sort mapping. -/
theorem c9_pagination_requires_sort_witness :
    queryDraftsV1 envNull argsPagNoSort = none ∧
      queryDraftsV2 envNull argsPagNoSort = none :=
  (c9_pagination_requires_sort envNull argsPagNoSort poNoSort rfl).1 rfl

/-- C10: an entirely absent configuration object or database section
falls back to strategy A, and only a present configuration whose flag is
literally set selects strategy B. -/
theorem c10_absent_config_falls_back (env : QueryEnv) (args : Args) :
    (args.payload.config = none →
      queryDrafts env args = queryDraftsV1 env args) ∧
    (∀ c, args.payload.config = some c → c.database = none →
      queryDrafts env args = queryDraftsV1 env args) ∧
    (usesFlagStrategy args.payload = true ↔
      ∃ c d, args.payload.config = some c ∧ c.database = some d ∧
        d.queryDrafts_2_0 = some true) := by
  refine ⟨?_, ?_, ?_⟩
  · intro h
    simp [queryDrafts, usesFlagStrategy, h]
  · intro c hc hd
    simp [queryDrafts, usesFlagStrategy, hc, hd]
  · unfold usesFlagStrategy
    rcases hc : args.payload.config with _ | c
    · simp [hc]
    · rcases hd : c.database with _ | d
      · simp [hc, hd]
      · rcases hf : d.queryDrafts_2_0 with _ | b
        · simp [hc, hd, hf]
        · cases b <;> simp [hc, hd, hf]

/-- Witness for C10 at arguments with no configuration at all. -/
theorem c10_absent_config_falls_back_witness :
    queryDrafts envNull argsBase = queryDraftsV1 envNull argsBase :=
  (c10_absent_config_falls_back envNull argsBase).1 rfl

end QueryDraftsModel
